import Mathlib

/-!
The podman `farm update`: the reconciliation performed by `farmUpdate`

Shallow embedding of `cmd/podman/farm/update.go`.

* Go maps (`map[string]T`) are embedded as `GoMap T`, a list of key/value
  entries with first-match lookup.  The operations never create a second entry
  for a key, so maps built from `GoMap.empty` have distinct keys; the theorems
  below do not need that assumption on the configuration they are given.
* Go leaves the iteration order of `range` over a map unspecified.  The order
  used by the final `for k := range cMap` loop is a parameter (`MapRange`): any
  function returning a permutation of the keys.
* `farmUpdate` is embedded with explicit state passing: it receives the
  configuration held by the store (what `config.ReadCustomConfig` returns),
  and yields the in-memory `cfg` value as it is when the function returns, the
  configuration held by the store afterwards (changed only by `cfg.Write`),
  and the error, if any.  I/O failures of load and save are not modelled.
-/

namespace Farm

/-- A Go `map[string]α`: entries in some internal order, looked up by first match. -/
structure GoMap (α : Type) where
  entries : List (String × α)
deriving DecidableEq, Repr

namespace GoMap

variable {α : Type}

/-- The map made by `make(map[string]α)`. -/
def empty : GoMap α := ⟨[]⟩

/-- First value stored under `k` in a list of entries. -/
def lookupEntries (k : String) : List (String × α) → Option α
  | [] => none
  | (k', v) :: rest => if k' = k then some v else lookupEntries k rest

/-- Store `v` under `k` in a list of entries: overwrite in place, else append. -/
def setEntries (k : String) (v : α) : List (String × α) → List (String × α)
  | [] => [(k, v)]
  | (k', v') :: rest => if k' = k then (k, v) :: rest else (k', v') :: setEntries k v rest

/-- Go `v, ok := m[k]`: `some v` when `ok`, `none` otherwise. -/
def get? (m : GoMap α) (k : String) : Option α := lookupEntries k m.entries

/-- Go `_, ok := m[k]`. -/
def has (m : GoMap α) (k : String) : Bool := (m.get? k).isSome

/-- Go `m[k] = v`. -/
def set (m : GoMap α) (k : String) (v : α) : GoMap α := ⟨setEntries k v m.entries⟩

/-- Go `delete(m, k)`. -/
def delete (m : GoMap α) (k : String) : GoMap α := ⟨m.entries.filter (fun e => e.1 ≠ k)⟩

/-- Go `len(m)`. -/
def len (m : GoMap α) : Nat := m.entries.length

/-- The keys of the map, in internal order. -/
def keys (m : GoMap α) : List String := m.entries.map Prod.fst

end GoMap

/-- The order in which a `range` loop visits the keys of a map: unspecified in
Go, so any rearrangement of the keys. -/
structure MapRange where
  order : List String → List String
  perm : ∀ l, (order l).Perm l

/-- The iteration order that follows the internal order of the entries. -/
def MapRange.inOrder : MapRange := ⟨fun l => l, fun l => List.Perm.refl l⟩

/-- The iteration order that visits the entries backwards. -/
def MapRange.backwards : MapRange := ⟨List.reverse, fun l => List.reverse_perm l⟩

/-- A slice of strings (`[]string`); the nil slice is the empty list. -/
abbrev Strings := List String

/-- The `Farms` section of `config.Config`: `Default string` and
`List map[string][]string`. -/
structure FarmConfig where
  Default : String
  List : GoMap Strings
deriving DecidableEq, Repr

/-- The `Engine` section of `config.Config`, reduced to the field read here:
`ServiceDestinations map[string]Destination`.  The descriptor type `D` is a
parameter. -/
structure EngineConfig (D : Type) where
  ServiceDestinations : GoMap D
deriving DecidableEq, Repr

/-- The part of `config.Config` used by `farmUpdate`. -/
structure Config (D : Type) where
  Engine : EngineConfig D
  Farms : FarmConfig
deriving DecidableEq, Repr

/-- The package-level `updateOpts` struct holding the cli values. -/
structure UpdateOpts where
  Add : Strings
  Remove : Strings
  Default : Bool
deriving DecidableEq, Repr

/-- The errors `farmUpdate` builds itself, one constructor per message. -/
inductive UpdateError where
  /-- message "nothing to update for farm %q, please use the --add, --remove, or --default flags ..." -/
  | NoOpRequest (farmName : String)
  /-- message "no farms are created at this time, there is nothing to update" -/
  | NoFarmsExist
  /-- message "cannot update farm, %q farm doesn't exist" -/
  | FarmNotFound (farmName : String)
  /-- message "cannot remove from farm, %q is not a connection in the farm" -/
  | ConnectionNotInFarm (cRemove : String)
  /-- message "cannot add to farm, %q is not a system connection" -/
  | UnknownConnection (cAdd : String)
deriving DecidableEq, Repr

/-- Modelled from the spec: `util.StringInSlice` lives in `pkg/util`, outside the
unit; the spec reads the call as "the name is currently a member of the farm". -/
def StringInSlice (s : String) (sl : Strings) : Bool := decide (s ∈ sl)

/-- What a run of `farmUpdate` leaves behind. -/
structure Run (D : Type) where
  /-- the in-memory `cfg` value when the function returns -/
  cfg : Config D
  /-- the configuration held by the store afterwards -/
  stored : Config D
  /-- the returned error; `none` is Go's `nil` -/
  err : Option UpdateError
deriving DecidableEq, Repr

variable {D : Type}

/-- Lines 88-90: `for _, c := range val { cMap[c] = 0 }`. -/
def fillLoop : Strings → GoMap Int → GoMap Int
  | [], cMap => cMap
  | c :: rest, cMap => fillLoop rest (cMap.set c 0)

/-- Lines 92-99: the loop over `updateOpts.Remove`; `connections` is re-read from
`cfg.Farms.List[farmName]` in every iteration (a missing key reads as nil). -/
def removeLoop (cfg : Config D) (farmName : String) :
    Strings → GoMap Int → Except UpdateError (GoMap Int)
  | [], cMap => .ok cMap
  | cRemove :: rest, cMap =>
    let connections := (cfg.Farms.List.get? farmName).getD []
    if StringInSlice cRemove connections then
      removeLoop cfg farmName rest (cMap.delete cRemove)
    else
      .error (.ConnectionNotInFarm cRemove)

/-- Lines 101-109: the loop over `updateOpts.Add`. -/
def addLoop (cfg : Config D) : Strings → GoMap Int → Except UpdateError (GoMap Int)
  | [], cMap => .ok cMap
  | cAdd :: rest, cMap =>
    if cfg.Engine.ServiceDestinations.has cAdd then
      if !cMap.has cAdd then
        addLoop cfg rest (cMap.set cAdd 0)
      else
        addLoop cfg rest cMap
    else
      .error (.UnknownConnection cAdd)

/-- Lines 111-114: `for k := range cMap { updatedConnections = append(updatedConnections, k) }`. -/
def collectKeys (it : MapRange) (cMap : GoMap Int) : Strings := it.order cMap.keys

/-- Lines 76-84: the `--default` handling, as an update of `cfg`. -/
def applyDefault (updateOpts : UpdateOpts) (defChanged : Bool) (farmName : String)
    (cfg : Config D) : Config D :=
  if defChanged then
    if updateOpts.Default then
      { cfg with Farms := { cfg.Farms with Default := farmName } }
    else
      { cfg with Farms := { cfg.Farms with Default := "" } }
  else cfg

/-- Line 115, `cfg.Farms.List[farmName] = updatedConnections`, as an update of `cfg`. -/
def withConnections (cfg : Config D) (farmName : String) (updated : Strings) : Config D :=
  { cfg with Farms := { cfg.Farms with List := cfg.Farms.List.set farmName updated } }

/-- Lines 86-116: the membership block.  Yields the in-memory `cfg` at the point
where the block is left, and the error if it returned early. -/
def updateConnections (it : MapRange) (updateOpts : UpdateOpts) (farmName : String)
    (cfg : Config D) : Config D × Option UpdateError :=
  match cfg.Farms.List.get? farmName with
  | some val =>
    let cMap := fillLoop val GoMap.empty
    match removeLoop cfg farmName updateOpts.Remove cMap with
    | .error e => (cfg, some e)
    | .ok cMap =>
      match addLoop cfg updateOpts.Add cMap with
      | .error e => (cfg, some e)
      | .ok cMap =>
        let updatedConnections := collectKeys it cMap
        (withConnections cfg farmName updatedConnections, none)
  | none => (cfg, none)

/-- The function `farmUpdate` (lines 54-123).  `farmName` is `args[0]`, `defChanged` is
`cmd.Flags().Changed("default")`, `store` is the configuration that
`config.ReadCustomConfig` loads and that `cfg.Write` overwrites. -/
def farmUpdate (it : MapRange) (updateOpts : UpdateOpts) (defChanged : Bool)
    (farmName : String) (store : Config D) : Run D :=
  if updateOpts.Add.length = 0 ∧ updateOpts.Remove.length = 0 ∧ !defChanged then
    ⟨store, store, some (.NoOpRequest farmName)⟩
  else
    let cfg := store
    if cfg.Farms.List.len = 0 then
      ⟨cfg, store, some .NoFarmsExist⟩
    else if !cfg.Farms.List.has farmName then
      ⟨cfg, store, some (.FarmNotFound farmName)⟩
    else
      let cfg := applyDefault updateOpts defChanged farmName cfg
      match updateConnections it updateOpts farmName cfg with
      | (cfg, some e) => ⟨cfg, store, some e⟩
      | (cfg, none) => ⟨cfg, cfg, none⟩

/-- The tri-state default directive of the spec, read off the flag state. -/
inductive Directive where
  | unchanged
  | setDefault
  | clearDefault
deriving DecidableEq, Repr

/-- The directive carried by a request: `--default` not given, `--default=true`,
`--default=false`. -/
def directive (updateOpts : UpdateOpts) (defChanged : Bool) : Directive :=
  if defChanged then (if updateOpts.Default then .setDefault else .clearDefault) else .unchanged

/-- The scenario configuration of the spec: `farm1` = {con1, con2}, registry =
{con1, con2, con3}, no default farm. -/
def scenarioCfg : Config Unit :=
  { Engine := { ServiceDestinations := ⟨[("con1", ()), ("con2", ()), ("con3", ())]⟩ },
    Farms := { Default := "", List := ⟨[("farm1", ["con1", "con2"])]⟩ } }

/-- A configuration whose farm lists a connection (conZ) that the registry does
not know: `farm1` = [conZ, con1], registry = {con1}. -/
def danglingCfg : Config Unit :=
  { Engine := { ServiceDestinations := ⟨[("con1", ())]⟩ },
    Farms := { Default := "", List := ⟨[("farm1", ["conZ", "con1"])]⟩ } }

/-- A configuration whose farm list repeats a name, next to a second farm that is
the default: `farm1` = [con1, con1, con2], `farm2` = [con3], registry = {con1,
con2, con3}. -/
def dupCfg : Config Unit :=
  { Engine := { ServiceDestinations := ⟨[("con1", ()), ("con2", ()), ("con3", ())]⟩ },
    Farms := { Default := "farm2",
               List := ⟨[("farm1", ["con1", "con1", "con2"]), ("farm2", ["con3"])]⟩ } }

/-! ## Maps -/

namespace GoMap

variable {α : Type}

theorem lookupEntries_isSome (k : String) (es : List (String × α)) :
    (lookupEntries k es).isSome = true ↔ k ∈ es.map Prod.fst := by
  induction es with
  | nil => simp [lookupEntries]
  | cons e rest ih =>
    obtain ⟨k', v⟩ := e
    by_cases h : k' = k
    · simp [lookupEntries, h]
    · have h' : ¬ k = k' := fun hk => h hk.symm
      simp [lookupEntries, h, h', ih]

theorem has_iff_mem_keys (m : GoMap α) (k : String) : m.has k = true ↔ k ∈ m.keys := by
  unfold has get? keys
  exact lookupEntries_isSome k m.entries

theorem has_of_get? {m : GoMap α} {k : String} {v : α} (h : m.get? k = some v) :
    m.has k = true := by
  simp [has, h]

theorem mem_keys_of_get? {m : GoMap α} {k : String} {v : α} (h : m.get? k = some v) :
    k ∈ m.keys :=
  (has_iff_mem_keys m k).1 (has_of_get? h)

theorem get?_isSome_of_mem_keys {m : GoMap α} {k : String} (h : k ∈ m.keys) :
    ∃ v, m.get? k = some v := by
  have := (has_iff_mem_keys m k).2 h
  unfold has at this
  exact Option.isSome_iff_exists.1 this

theorem mem_map_fst_setEntries (k : String) (v : α) (es : List (String × α)) (k' : String) :
    k' ∈ (setEntries k v es).map Prod.fst ↔ k' = k ∨ k' ∈ es.map Prod.fst := by
  induction es with
  | nil => simp [setEntries]
  | cons e rest ih =>
    obtain ⟨k₀, v₀⟩ := e
    by_cases h : k₀ = k
    · subst h
      simp [setEntries]
    · simp only [setEntries, h, if_false, List.map_cons, List.mem_cons, ih]
      tauto

theorem mem_keys_set (m : GoMap α) (k : String) (v : α) (k' : String) :
    k' ∈ (m.set k v).keys ↔ k' = k ∨ k' ∈ m.keys :=
  mem_map_fst_setEntries k v m.entries k'

theorem map_fst_setEntries_of_mem (k : String) (v : α) (es : List (String × α))
    (h : k ∈ es.map Prod.fst) : (setEntries k v es).map Prod.fst = es.map Prod.fst := by
  induction es with
  | nil => simp at h
  | cons e rest ih =>
    obtain ⟨k₀, v₀⟩ := e
    by_cases h₀ : k₀ = k
    · subst h₀
      simp [setEntries]
    · have hrest : k ∈ rest.map Prod.fst := by
        simp only [List.map_cons, List.mem_cons] at h
        rcases h with h | h
        · exact absurd h.symm h₀
        · exact h
      simp [setEntries, h₀, ih hrest]

theorem keys_set_of_mem (m : GoMap α) (k : String) (v : α) (h : k ∈ m.keys) :
    (m.set k v).keys = m.keys :=
  map_fst_setEntries_of_mem k v m.entries h

theorem lookupEntries_setEntries_self (k : String) (v : α) (es : List (String × α)) :
    lookupEntries k (setEntries k v es) = some v := by
  induction es with
  | nil => simp [setEntries, lookupEntries]
  | cons e rest ih =>
    obtain ⟨k₀, v₀⟩ := e
    by_cases h : k₀ = k
    · simp [setEntries, lookupEntries, h]
    · simp [setEntries, lookupEntries, h, ih]

theorem get?_set_self (m : GoMap α) (k : String) (v : α) : (m.set k v).get? k = some v :=
  lookupEntries_setEntries_self k v m.entries

theorem lookupEntries_setEntries_ne (k : String) (v : α) (es : List (String × α))
    (k' : String) (hne : k' ≠ k) :
    lookupEntries k' (setEntries k v es) = lookupEntries k' es := by
  induction es with
  | nil => simp [setEntries, lookupEntries, hne.symm]
  | cons e rest ih =>
    obtain ⟨k₀, v₀⟩ := e
    by_cases h : k₀ = k
    · subst h
      simp [setEntries, lookupEntries, hne.symm]
    · by_cases h' : k₀ = k'
      · subst h'
        simp [setEntries, lookupEntries, h]
      · simp [setEntries, lookupEntries, h, h', ih]

theorem get?_set_ne (m : GoMap α) (k : String) (v : α) (k' : String) (hne : k' ≠ k) :
    (m.set k v).get? k' = m.get? k' :=
  lookupEntries_setEntries_ne k v m.entries k' hne

theorem mem_keys_delete (m : GoMap α) (k k' : String) :
    k' ∈ (m.delete k).keys ↔ k' ∈ m.keys ∧ k' ≠ k := by
  unfold delete keys
  simp only [List.mem_map, List.mem_filter, decide_eq_true_eq]
  constructor
  · rintro ⟨e, ⟨he, hk⟩, rfl⟩
    exact ⟨⟨e, he, rfl⟩, hk⟩
  · rintro ⟨⟨e, he, rfl⟩, hk⟩
    exact ⟨e, ⟨he, hk⟩, rfl⟩

theorem keys_empty : (empty : GoMap α).keys = [] := rfl

theorem len_eq_zero_iff (m : GoMap α) : m.len = 0 ↔ m.keys = [] := by
  unfold len keys
  simp

end GoMap

/-! ## The three loops -/

theorem mem_keys_fillLoop (val : Strings) (cMap : GoMap Int) (n : String) :
    n ∈ (fillLoop val cMap).keys ↔ n ∈ val ∨ n ∈ cMap.keys := by
  induction val generalizing cMap with
  | nil => simp [fillLoop]
  | cons c rest ih =>
    simp only [fillLoop, ih, GoMap.mem_keys_set, List.mem_cons]
    tauto

theorem StringInSlice_iff (s : String) (sl : Strings) : StringInSlice s sl = true ↔ s ∈ sl := by
  simp [StringInSlice]

/-- The removal loop runs to its end exactly when every name is a member of the
farm as stored in `cfg`; the map it then returns holds the keys not removed. -/
theorem removeLoop_of_all_mem (cfg : Config D) (farmName : String) (remove : Strings)
    (cMap : GoMap Int)
    (hall : ∀ c ∈ remove, c ∈ (cfg.Farms.List.get? farmName).getD []) :
    ∃ cMap', removeLoop cfg farmName remove cMap = .ok cMap' ∧
      ∀ n, n ∈ cMap'.keys ↔ n ∈ cMap.keys ∧ n ∉ remove := by
  induction remove generalizing cMap with
  | nil => exact ⟨cMap, rfl, by simp⟩
  | cons c rest ih =>
    have hc : StringInSlice c ((cfg.Farms.List.get? farmName).getD []) = true :=
      (StringInSlice_iff _ _).2 (hall c (List.mem_cons_self c rest))
    obtain ⟨cMap', hrun, hkeys⟩ :=
      ih (cMap.delete c) (fun c' hc' => hall c' (List.mem_cons_of_mem c hc'))
    refine ⟨cMap', ?_, ?_⟩
    · simp only [removeLoop, hc, if_true]
      exact hrun
    · intro n
      rw [hkeys n, GoMap.mem_keys_delete, List.mem_cons]
      tauto

/-- The removal loop stops at the first name that is not a member of the farm. -/
theorem removeLoop_of_first_missing (cfg : Config D) (farmName : String)
    (pre post : Strings) (x : String) (cMap : GoMap Int)
    (hpre : ∀ c ∈ pre, c ∈ (cfg.Farms.List.get? farmName).getD [])
    (hx : x ∉ (cfg.Farms.List.get? farmName).getD []) :
    removeLoop cfg farmName (pre ++ x :: post) cMap = .error (.ConnectionNotInFarm x) := by
  induction pre generalizing cMap with
  | nil =>
    have hc : StringInSlice x ((cfg.Farms.List.get? farmName).getD []) = false := by
      simp [StringInSlice, hx]
    simp [removeLoop, hc]
  | cons c rest ih =>
    have hc : StringInSlice c ((cfg.Farms.List.get? farmName).getD []) = true :=
      (StringInSlice_iff _ _).2 (hpre c (List.mem_cons_self c rest))
    simp only [List.cons_append, removeLoop, hc, if_true]
    exact ih (cMap.delete c) (fun c' hc' => hpre c' (List.mem_cons_of_mem c hc'))

/-- The addition loop runs to its end exactly when every name is a key of the
registry; the map it then returns holds the old keys and the added names. -/
theorem addLoop_of_all_known (cfg : Config D) (add : Strings) (cMap : GoMap Int)
    (hall : ∀ c ∈ add, c ∈ cfg.Engine.ServiceDestinations.keys) :
    ∃ cMap', addLoop cfg add cMap = .ok cMap' ∧
      ∀ n, n ∈ cMap'.keys ↔ n ∈ cMap.keys ∨ n ∈ add := by
  induction add generalizing cMap with
  | nil => exact ⟨cMap, rfl, by simp⟩
  | cons c rest ih =>
    have hc : cfg.Engine.ServiceDestinations.has c = true :=
      (GoMap.has_iff_mem_keys _ _).2 (hall c (List.mem_cons_self c rest))
    have hrest : ∀ c' ∈ rest, c' ∈ cfg.Engine.ServiceDestinations.keys :=
      fun c' hc' => hall c' (List.mem_cons_of_mem c hc')
    by_cases hin : cMap.has c = true
    · obtain ⟨cMap', hrun, hkeys⟩ := ih cMap hrest
      refine ⟨cMap', ?_, ?_⟩
      · simp only [addLoop, hc, hin, if_true, Bool.not_true]
        exact hrun
      · intro n
        rw [hkeys n, List.mem_cons]
        have := (GoMap.has_iff_mem_keys cMap c).1 hin
        constructor
        · tauto
        · rintro (h | h | h)
          · exact Or.inl h
          · exact Or.inl (h ▸ this)
          · exact Or.inr h
    · obtain ⟨cMap', hrun, hkeys⟩ := ih (cMap.set c 0) hrest
      have hin' : cMap.has c = false := by simpa using hin
      refine ⟨cMap', ?_, ?_⟩
      · simp only [addLoop, hc, hin', if_true, Bool.not_false]
        exact hrun
      · intro n
        rw [hkeys n, GoMap.mem_keys_set, List.mem_cons]
        tauto

/-- The addition loop stops at the first name that is not a key of the registry. -/
theorem addLoop_of_first_unknown (cfg : Config D) (pre post : Strings) (y : String)
    (cMap : GoMap Int)
    (hpre : ∀ c ∈ pre, c ∈ cfg.Engine.ServiceDestinations.keys)
    (hy : y ∉ cfg.Engine.ServiceDestinations.keys) :
    addLoop cfg (pre ++ y :: post) cMap = .error (.UnknownConnection y) := by
  induction pre generalizing cMap with
  | nil =>
    have hc : cfg.Engine.ServiceDestinations.has y = false := by
      have := mt (GoMap.has_iff_mem_keys cfg.Engine.ServiceDestinations y).1 hy
      simpa using this
    simp [addLoop, hc]
  | cons c rest ih =>
    have hc : cfg.Engine.ServiceDestinations.has c = true :=
      (GoMap.has_iff_mem_keys _ _).2 (hpre c (List.mem_cons_self c rest))
    have hrest : ∀ c' ∈ rest, c' ∈ cfg.Engine.ServiceDestinations.keys :=
      fun c' hc' => hpre c' (List.mem_cons_of_mem c hc')
    by_cases hin : cMap.has c = true
    · simp only [List.cons_append, addLoop, hc, hin, if_true, Bool.not_true]
      exact ih cMap hrest
    · have hin' : cMap.has c = false := by simpa using hin
      simp only [List.cons_append, addLoop, hc, hin', if_true, Bool.not_false]
      exact ih (cMap.set c 0) hrest

/-- A list either has all its elements in `p`, or splits at the first that is not. -/
theorem split_at_first_not (p : String → Prop) (l : Strings) :
    (∀ c ∈ l, p c) ∨ ∃ pre x post, l = pre ++ x :: post ∧ (∀ c ∈ pre, p c) ∧ ¬ p x := by
  induction l with
  | nil => exact Or.inl (by simp)
  | cons c rest ih =>
    by_cases hc : p c
    · rcases ih with h | ⟨pre, x, post, hl, hpre, hx⟩
      · left
        intro c' hc'
        rcases List.mem_cons.1 hc' with h' | h'
        · exact h' ▸ hc
        · exact h c' h'
      · right
        refine ⟨c :: pre, x, post, by simp [hl], ?_, hx⟩
        intro c' hc'
        rcases List.mem_cons.1 hc' with h' | h'
        · exact h' ▸ hc
        · exact hpre c' h'
    · exact Or.inr ⟨[], c, rest, rfl, by simp, hc⟩

/-! ## The default directive and the membership block -/

theorem applyDefault_List (updateOpts : UpdateOpts) (defChanged : Bool) (farmName : String)
    (cfg : Config D) :
    (applyDefault updateOpts defChanged farmName cfg).Farms.List = cfg.Farms.List := by
  unfold applyDefault
  split
  · split <;> rfl
  · rfl

theorem applyDefault_Engine (updateOpts : UpdateOpts) (defChanged : Bool) (farmName : String)
    (cfg : Config D) :
    (applyDefault updateOpts defChanged farmName cfg).Engine = cfg.Engine := by
  unfold applyDefault
  split
  · split <;> rfl
  · rfl

theorem applyDefault_Default (updateOpts : UpdateOpts) (defChanged : Bool) (farmName : String)
    (cfg : Config D) :
    (applyDefault updateOpts defChanged farmName cfg).Farms.Default =
      match directive updateOpts defChanged with
      | .unchanged => cfg.Farms.Default
      | .setDefault => farmName
      | .clearDefault => "" := by
  unfold applyDefault directive
  cases defChanged <;> cases updateOpts.Default <;> rfl

theorem applyDefault_of_not_changed (updateOpts : UpdateOpts) (farmName : String)
    (cfg : Config D) : applyDefault updateOpts false farmName cfg = cfg := by
  simp [applyDefault]

theorem updateConnections_ok (it : MapRange) (updateOpts : UpdateOpts) (farmName : String)
    (cfg : Config D) (val : Strings) (hval : cfg.Farms.List.get? farmName = some val)
    (hrem : ∀ c ∈ updateOpts.Remove, c ∈ val)
    (hadd : ∀ c ∈ updateOpts.Add, c ∈ cfg.Engine.ServiceDestinations.keys) :
    ∃ updated, updateConnections it updateOpts farmName cfg
        = (withConnections cfg farmName updated, none) ∧
      ∀ n, n ∈ updated ↔ (n ∈ val ∧ n ∉ updateOpts.Remove) ∨ n ∈ updateOpts.Add := by
  have hrem' : ∀ c ∈ updateOpts.Remove, c ∈ (cfg.Farms.List.get? farmName).getD [] := by
    simpa [hval] using hrem
  obtain ⟨m₁, hrun₁, hkeys₁⟩ :=
    removeLoop_of_all_mem cfg farmName updateOpts.Remove (fillLoop val GoMap.empty) hrem'
  obtain ⟨m₂, hrun₂, hkeys₂⟩ := addLoop_of_all_known cfg updateOpts.Add m₁ hadd
  refine ⟨collectKeys it m₂, ?_, ?_⟩
  · simp only [updateConnections, hval, hrun₁, hrun₂, withConnections]
  · intro n
    unfold collectKeys
    rw [(it.perm m₂.keys).mem_iff, hkeys₂ n, hkeys₁ n, mem_keys_fillLoop]
    simp [GoMap.keys_empty]

theorem updateConnections_remove_fails (it : MapRange) (updateOpts : UpdateOpts)
    (farmName : String) (cfg : Config D) (val pre post : Strings) (x : String)
    (hval : cfg.Farms.List.get? farmName = some val)
    (hsplit : updateOpts.Remove = pre ++ x :: post)
    (hpre : ∀ c ∈ pre, c ∈ val) (hx : x ∉ val) :
    updateConnections it updateOpts farmName cfg = (cfg, some (.ConnectionNotInFarm x)) := by
  have hpre' : ∀ c ∈ pre, c ∈ (cfg.Farms.List.get? farmName).getD [] := by
    simpa [hval] using hpre
  have hx' : x ∉ (cfg.Farms.List.get? farmName).getD [] := by
    simpa [hval] using hx
  have hrun := removeLoop_of_first_missing cfg farmName pre post x
    (fillLoop val GoMap.empty) hpre' hx'
  simp only [updateConnections, hval, hsplit, hrun]

theorem updateConnections_add_fails (it : MapRange) (updateOpts : UpdateOpts)
    (farmName : String) (cfg : Config D) (val pre post : Strings) (y : String)
    (hval : cfg.Farms.List.get? farmName = some val)
    (hrem : ∀ c ∈ updateOpts.Remove, c ∈ val)
    (hsplit : updateOpts.Add = pre ++ y :: post)
    (hpre : ∀ c ∈ pre, c ∈ cfg.Engine.ServiceDestinations.keys)
    (hy : y ∉ cfg.Engine.ServiceDestinations.keys) :
    updateConnections it updateOpts farmName cfg = (cfg, some (.UnknownConnection y)) := by
  have hrem' : ∀ c ∈ updateOpts.Remove, c ∈ (cfg.Farms.List.get? farmName).getD [] := by
    simpa [hval] using hrem
  obtain ⟨m₁, hrun₁, -⟩ :=
    removeLoop_of_all_mem cfg farmName updateOpts.Remove (fillLoop val GoMap.empty) hrem'
  have hrun₂ := addLoop_of_first_unknown cfg pre post y m₁ hpre hy
  simp only [updateConnections, hval, hrun₁, hsplit, hrun₂]

/-! ## `farmUpdate`, branch by branch -/

theorem farmUpdate_of_empty_request (it : MapRange) (updateOpts : UpdateOpts)
    (defChanged : Bool) (farmName : String) (store : Config D)
    (hadd : updateOpts.Add = []) (hrem : updateOpts.Remove = []) (hdef : defChanged = false) :
    farmUpdate it updateOpts defChanged farmName store
      = ⟨store, store, some (.NoOpRequest farmName)⟩ := by
  simp [farmUpdate, hadd, hrem, hdef]

theorem request_guard_false (updateOpts : UpdateOpts) (defChanged : Bool)
    (hreq : updateOpts.Add ≠ [] ∨ updateOpts.Remove ≠ [] ∨ defChanged = true) :
    ¬ (updateOpts.Add.length = 0 ∧ updateOpts.Remove.length = 0 ∧ (!defChanged) = true) := by
  rintro ⟨h₁, h₂, h₃⟩
  rcases hreq with h | h | h
  · exact h (List.length_eq_zero.1 h₁)
  · exact h (List.length_eq_zero.1 h₂)
  · simp [h] at h₃

theorem farmUpdate_of_no_farms (it : MapRange) (updateOpts : UpdateOpts)
    (defChanged : Bool) (farmName : String) (store : Config D)
    (hreq : updateOpts.Add ≠ [] ∨ updateOpts.Remove ≠ [] ∨ defChanged = true)
    (hlen : store.Farms.List.len = 0) :
    farmUpdate it updateOpts defChanged farmName store
      = ⟨store, store, some .NoFarmsExist⟩ := by
  unfold farmUpdate
  rw [if_neg (request_guard_false updateOpts defChanged hreq)]
  simp [hlen]

theorem farmUpdate_of_farm_missing (it : MapRange) (updateOpts : UpdateOpts)
    (defChanged : Bool) (farmName : String) (store : Config D)
    (hreq : updateOpts.Add ≠ [] ∨ updateOpts.Remove ≠ [] ∨ defChanged = true)
    (hlen : store.Farms.List.len ≠ 0) (hfarm : farmName ∉ store.Farms.List.keys) :
    farmUpdate it updateOpts defChanged farmName store
      = ⟨store, store, some (.FarmNotFound farmName)⟩ := by
  have hhas : store.Farms.List.has farmName = false := by
    have := mt (GoMap.has_iff_mem_keys store.Farms.List farmName).1 hfarm
    simpa using this
  unfold farmUpdate
  rw [if_neg (request_guard_false updateOpts defChanged hreq)]
  simp [hlen, hhas]

theorem len_ne_zero_of_get? {α : Type} {m : GoMap α} {k : String} {v : α}
    (h : m.get? k = some v) : m.len ≠ 0 := by
  intro hlen
  have hk := GoMap.mem_keys_of_get? h
  rw [(GoMap.len_eq_zero_iff m).1 hlen] at hk
  simp at hk

/-- Past the three precondition checks `farmUpdate` is the default handling
followed by the membership block. -/
theorem farmUpdate_of_farm_present (it : MapRange) (updateOpts : UpdateOpts)
    (defChanged : Bool) (farmName : String) (store : Config D) (val : Strings)
    (hreq : updateOpts.Add ≠ [] ∨ updateOpts.Remove ≠ [] ∨ defChanged = true)
    (hval : store.Farms.List.get? farmName = some val) :
    farmUpdate it updateOpts defChanged farmName store =
      match updateConnections it updateOpts farmName
          (applyDefault updateOpts defChanged farmName store) with
      | (cfg, some e) => ⟨cfg, store, some e⟩
      | (cfg, none) => ⟨cfg, cfg, none⟩ := by
  have hhas : store.Farms.List.has farmName = true := GoMap.has_of_get? hval
  have hlen : store.Farms.List.len ≠ 0 := len_ne_zero_of_get? hval
  unfold farmUpdate
  rw [if_neg (request_guard_false updateOpts defChanged hreq)]
  simp [hlen, hhas]

theorem farmUpdate_of_valid (it : MapRange) (updateOpts : UpdateOpts)
    (defChanged : Bool) (farmName : String) (store : Config D) (val : Strings)
    (hreq : updateOpts.Add ≠ [] ∨ updateOpts.Remove ≠ [] ∨ defChanged = true)
    (hval : store.Farms.List.get? farmName = some val)
    (hrem : ∀ c ∈ updateOpts.Remove, c ∈ val)
    (hadd : ∀ c ∈ updateOpts.Add, c ∈ store.Engine.ServiceDestinations.keys) :
    ∃ updated,
      farmUpdate it updateOpts defChanged farmName store
        = ⟨withConnections (applyDefault updateOpts defChanged farmName store) farmName updated,
           withConnections (applyDefault updateOpts defChanged farmName store) farmName updated,
           none⟩ ∧
      ∀ n, n ∈ updated ↔ (n ∈ val ∧ n ∉ updateOpts.Remove) ∨ n ∈ updateOpts.Add := by
  have hval' : (applyDefault updateOpts defChanged farmName store).Farms.List.get? farmName
      = some val := by rw [applyDefault_List]; exact hval
  have hadd' : ∀ c ∈ updateOpts.Add,
      c ∈ (applyDefault updateOpts defChanged farmName store).Engine.ServiceDestinations.keys := by
    rw [applyDefault_Engine]; exact hadd
  obtain ⟨updated, hrun, hmem⟩ := updateConnections_ok it updateOpts farmName
    (applyDefault updateOpts defChanged farmName store) val hval' hrem hadd'
  refine ⟨updated, ?_, hmem⟩
  rw [farmUpdate_of_farm_present it updateOpts defChanged farmName store val hreq hval, hrun]

theorem farmUpdate_of_bad_remove (it : MapRange) (updateOpts : UpdateOpts)
    (defChanged : Bool) (farmName : String) (store : Config D) (val pre post : Strings)
    (x : String)
    (hval : store.Farms.List.get? farmName = some val)
    (hsplit : updateOpts.Remove = pre ++ x :: post)
    (hpre : ∀ c ∈ pre, c ∈ val) (hx : x ∉ val) :
    farmUpdate it updateOpts defChanged farmName store
      = ⟨applyDefault updateOpts defChanged farmName store, store,
         some (.ConnectionNotInFarm x)⟩ := by
  have hreq : updateOpts.Add ≠ [] ∨ updateOpts.Remove ≠ [] ∨ defChanged = true :=
    Or.inr (Or.inl (by simp [hsplit]))
  have hval' : (applyDefault updateOpts defChanged farmName store).Farms.List.get? farmName
      = some val := by rw [applyDefault_List]; exact hval
  rw [farmUpdate_of_farm_present it updateOpts defChanged farmName store val hreq hval,
    updateConnections_remove_fails it updateOpts farmName _ val pre post x hval' hsplit hpre hx]

theorem farmUpdate_of_bad_add (it : MapRange) (updateOpts : UpdateOpts)
    (defChanged : Bool) (farmName : String) (store : Config D) (val pre post : Strings)
    (y : String)
    (hval : store.Farms.List.get? farmName = some val)
    (hrem : ∀ c ∈ updateOpts.Remove, c ∈ val)
    (hsplit : updateOpts.Add = pre ++ y :: post)
    (hpre : ∀ c ∈ pre, c ∈ store.Engine.ServiceDestinations.keys)
    (hy : y ∉ store.Engine.ServiceDestinations.keys) :
    farmUpdate it updateOpts defChanged farmName store
      = ⟨applyDefault updateOpts defChanged farmName store, store,
         some (.UnknownConnection y)⟩ := by
  have hreq : updateOpts.Add ≠ [] ∨ updateOpts.Remove ≠ [] ∨ defChanged = true :=
    Or.inl (by simp [hsplit])
  have hval' : (applyDefault updateOpts defChanged farmName store).Farms.List.get? farmName
      = some val := by rw [applyDefault_List]; exact hval
  have hpre' : ∀ c ∈ pre,
      c ∈ (applyDefault updateOpts defChanged farmName store).Engine.ServiceDestinations.keys := by
    rw [applyDefault_Engine]; exact hpre
  have hy' :
      y ∉ (applyDefault updateOpts defChanged farmName store).Engine.ServiceDestinations.keys := by
    rw [applyDefault_Engine]; exact hy
  rw [farmUpdate_of_farm_present it updateOpts defChanged farmName store val hreq hval,
    updateConnections_add_fails it updateOpts farmName _ val pre post y hval' hrem hsplit
      hpre' hy']

/-- Every run of `farmUpdate` ends in one of six ways. -/
theorem farmUpdate_cases (it : MapRange) (updateOpts : UpdateOpts)
    (defChanged : Bool) (farmName : String) (store : Config D) :
    farmUpdate it updateOpts defChanged farmName store
        = ⟨store, store, some (.NoOpRequest farmName)⟩ ∨
    farmUpdate it updateOpts defChanged farmName store
        = ⟨store, store, some .NoFarmsExist⟩ ∨
    farmUpdate it updateOpts defChanged farmName store
        = ⟨store, store, some (.FarmNotFound farmName)⟩ ∨
    (∃ x, farmUpdate it updateOpts defChanged farmName store
        = ⟨applyDefault updateOpts defChanged farmName store, store,
           some (.ConnectionNotInFarm x)⟩) ∨
    (∃ y, farmUpdate it updateOpts defChanged farmName store
        = ⟨applyDefault updateOpts defChanged farmName store, store,
           some (.UnknownConnection y)⟩) ∨
    (∃ val updated,
      (updateOpts.Add ≠ [] ∨ updateOpts.Remove ≠ [] ∨ defChanged = true) ∧
      store.Farms.List.get? farmName = some val ∧
      (∀ c ∈ updateOpts.Remove, c ∈ val) ∧
      (∀ c ∈ updateOpts.Add, c ∈ store.Engine.ServiceDestinations.keys) ∧
      farmUpdate it updateOpts defChanged farmName store
        = ⟨withConnections (applyDefault updateOpts defChanged farmName store) farmName updated,
           withConnections (applyDefault updateOpts defChanged farmName store) farmName updated,
           none⟩ ∧
      ∀ n, n ∈ updated ↔ (n ∈ val ∧ n ∉ updateOpts.Remove) ∨ n ∈ updateOpts.Add) := by
  by_cases hreq : updateOpts.Add ≠ [] ∨ updateOpts.Remove ≠ [] ∨ defChanged = true
  · by_cases hlen : store.Farms.List.len = 0
    · exact Or.inr (Or.inl (farmUpdate_of_no_farms it updateOpts defChanged farmName store
        hreq hlen))
    · by_cases hfarm : farmName ∈ store.Farms.List.keys
      · obtain ⟨val, hval⟩ := GoMap.get?_isSome_of_mem_keys hfarm
        rcases split_at_first_not (fun c => c ∈ val) updateOpts.Remove with
          hrem | ⟨pre, x, post, hsplit, hpre, hx⟩
        · rcases split_at_first_not (fun c => c ∈ store.Engine.ServiceDestinations.keys)
            updateOpts.Add with hadd | ⟨pre, y, post, hsplit, hpre, hy⟩
          · obtain ⟨updated, hrun, hmem⟩ := farmUpdate_of_valid it updateOpts defChanged
              farmName store val hreq hval hrem hadd
            exact Or.inr (Or.inr (Or.inr (Or.inr (Or.inr
              ⟨val, updated, hreq, hval, hrem, hadd, hrun, hmem⟩))))
          · exact Or.inr (Or.inr (Or.inr (Or.inr (Or.inl
              ⟨y, farmUpdate_of_bad_add it updateOpts defChanged farmName store val pre post y
                hval hrem hsplit hpre hy⟩))))
        · exact Or.inr (Or.inr (Or.inr (Or.inl
            ⟨x, farmUpdate_of_bad_remove it updateOpts defChanged farmName store val pre post x
              hval hsplit hpre hx⟩)))
      · exact Or.inr (Or.inr (Or.inl (farmUpdate_of_farm_missing it updateOpts defChanged
          farmName store hreq hlen hfarm)))
  · have h₁ : updateOpts.Add = [] := by
      by_contra h; exact hreq (Or.inl h)
    have h₂ : updateOpts.Remove = [] := by
      by_contra h; exact hreq (Or.inr (Or.inl h))
    have h₃ : defChanged = false := by
      cases defChanged
      · rfl
      · exact absurd (Or.inr (Or.inr rfl)) hreq
    exact Or.inl (farmUpdate_of_empty_request it updateOpts defChanged farmName store h₁ h₂ h₃)

/-- What a successful run implies about its input, and what it returns. -/
theorem farmUpdate_ok_inv (it : MapRange) (updateOpts : UpdateOpts)
    (defChanged : Bool) (farmName : String) (store : Config D)
    (hok : (farmUpdate it updateOpts defChanged farmName store).err = none) :
    ∃ val updated,
      (updateOpts.Add ≠ [] ∨ updateOpts.Remove ≠ [] ∨ defChanged = true) ∧
      store.Farms.List.get? farmName = some val ∧
      (∀ c ∈ updateOpts.Remove, c ∈ val) ∧
      (∀ c ∈ updateOpts.Add, c ∈ store.Engine.ServiceDestinations.keys) ∧
      farmUpdate it updateOpts defChanged farmName store
        = ⟨withConnections (applyDefault updateOpts defChanged farmName store) farmName updated,
           withConnections (applyDefault updateOpts defChanged farmName store) farmName updated,
           none⟩ ∧
      ∀ n, n ∈ updated ↔ (n ∈ val ∧ n ∉ updateOpts.Remove) ∨ n ∈ updateOpts.Add := by
  rcases farmUpdate_cases it updateOpts defChanged farmName store with
    h | h | h | ⟨x, h⟩ | ⟨y, h⟩ | h
  · rw [h] at hok; simp at hok
  · rw [h] at hok; simp at hok
  · rw [h] at hok; simp at hok
  · rw [h] at hok; simp at hok
  · rw [h] at hok; simp at hok
  · exact h

theorem withConnections_get? (cfg : Config D) (farmName : String) (updated : Strings) :
    (withConnections cfg farmName updated).Farms.List.get? farmName = some updated := by
  unfold withConnections
  exact GoMap.get?_set_self cfg.Farms.List farmName updated

theorem withConnections_Default (cfg : Config D) (farmName : String) (updated : Strings) :
    (withConnections cfg farmName updated).Farms.Default = cfg.Farms.Default := rfl

theorem withConnections_Engine (cfg : Config D) (farmName : String) (updated : Strings) :
    (withConnections cfg farmName updated).Engine = cfg.Engine := rfl

/-! ## The claims -/

/-- C1: when `farmName` exists and `farmUpdate` succeeds, the farm's resulting
connection list, read as a set, is (original set minus the remove list) union the
add list; the configuration written to the store is the in-memory one. -/
theorem farmUpdate_connection_set (it : MapRange) (updateOpts : UpdateOpts)
    (defChanged : Bool) (farmName : String) (store : Config D) (val : Strings)
    (hfarm : store.Farms.List.get? farmName = some val)
    (hok : (farmUpdate it updateOpts defChanged farmName store).err = none) :
    ∃ updated,
      (farmUpdate it updateOpts defChanged farmName store).cfg.Farms.List.get? farmName
        = some updated ∧
      (farmUpdate it updateOpts defChanged farmName store).stored
        = (farmUpdate it updateOpts defChanged farmName store).cfg ∧
      updated.toFinset
        = (val.toFinset \ updateOpts.Remove.toFinset) ∪ updateOpts.Add.toFinset := by
  obtain ⟨val', updated, -, hval', -, -, hrun, hmem⟩ :=
    farmUpdate_ok_inv it updateOpts defChanged farmName store hok
  have hvv : val' = val := Option.some.inj (hval'.symm.trans hfarm)
  subst hvv
  refine ⟨updated, ?_, ?_, ?_⟩
  · rw [hrun]
    exact withConnections_get? _ farmName updated
  · rw [hrun]
  · ext n
    simp only [List.mem_toFinset, Finset.mem_union, Finset.mem_sdiff]
    exact hmem n

/-- C1, at the scenario of the spec: farm1 = {con1, con2}, registry = {con1, con2,
con3}, add = [con3], remove = [con1] gives {con2, con3}. -/
theorem farmUpdate_connection_set_witness :
    scenarioCfg.Farms.List.get? "farm1" = some ["con1", "con2"] ∧
    (farmUpdate MapRange.inOrder ⟨["con3"], ["con1"], false⟩ false "farm1" scenarioCfg).err
      = none ∧
    (farmUpdate MapRange.inOrder ⟨["con3"], ["con1"], false⟩ false "farm1"
      scenarioCfg).cfg.Farms.List.get? "farm1" = some ["con2", "con3"] ∧
    ∃ updated,
      (farmUpdate MapRange.inOrder ⟨["con3"], ["con1"], false⟩ false "farm1"
        scenarioCfg).cfg.Farms.List.get? "farm1" = some updated ∧
      (farmUpdate MapRange.inOrder ⟨["con3"], ["con1"], false⟩ false "farm1" scenarioCfg).stored
        = (farmUpdate MapRange.inOrder ⟨["con3"], ["con1"], false⟩ false "farm1"
            scenarioCfg).cfg ∧
      updated.toFinset
        = ((["con1", "con2"] : Strings).toFinset \ (["con1"] : Strings).toFinset)
            ∪ (["con3"] : Strings).toFinset :=
  ⟨by decide, by decide, by decide,
    farmUpdate_connection_set MapRange.inOrder ⟨["con3"], ["con1"], false⟩ false "farm1"
      scenarioCfg ["con1", "con2"] (by decide) (by decide)⟩

/-- C2, as stated, fails: with `--default=true` and a removal of a non-member the
run ends in ConnectionNotInFarm, yet the in-memory `cfg.Farms.Default` has already
been overwritten with the farm name. -/
theorem farmUpdate_error_after_default_differs :
    (farmUpdate MapRange.inOrder ⟨[], ["conX"], true⟩ true "farm1" scenarioCfg).err
      = some (.ConnectionNotInFarm "conX") ∧
    scenarioCfg.Farms.Default = "" ∧
    (farmUpdate MapRange.inOrder ⟨[], ["conX"], true⟩ true "farm1" scenarioCfg).cfg.Farms.Default
      = "farm1" ∧
    (farmUpdate MapRange.inOrder ⟨[], ["conX"], true⟩ true "farm1" scenarioCfg).cfg
      ≠ scenarioCfg := by
  decide

/-- C2, amended: on every validation error nothing is written (the stored
configuration is the one loaded), and in the in-memory configuration the registry
and every farm's connection list are those passed in; the whole in-memory
configuration is the one passed in when the error is NoOpRequest, NoFarmsExist or
FarmNotFound, or when `--default` was not given; when the error is
ConnectionNotInFarm or UnknownConnection the in-memory default-farm field holds the
value chosen by the default directive. -/
theorem farmUpdate_error_frame (it : MapRange) (updateOpts : UpdateOpts)
    (defChanged : Bool) (farmName : String) (store : Config D) (e : UpdateError)
    (herr : (farmUpdate it updateOpts defChanged farmName store).err = some e) :
    (farmUpdate it updateOpts defChanged farmName store).stored = store ∧
    (farmUpdate it updateOpts defChanged farmName store).cfg.Engine = store.Engine ∧
    (farmUpdate it updateOpts defChanged farmName store).cfg.Farms.List = store.Farms.List ∧
    ((e = .NoOpRequest farmName ∨ e = .NoFarmsExist ∨ e = .FarmNotFound farmName ∨
        defChanged = false) →
      (farmUpdate it updateOpts defChanged farmName store).cfg = store) ∧
    ((∃ c, e = .ConnectionNotInFarm c ∨ e = .UnknownConnection c) →
      (farmUpdate it updateOpts defChanged farmName store).cfg.Farms.Default =
        match directive updateOpts defChanged with
        | .unchanged => store.Farms.Default
        | .setDefault => farmName
        | .clearDefault => "") := by
  rcases farmUpdate_cases it updateOpts defChanged farmName store with
    h | h | h | ⟨x, h⟩ | ⟨y, h⟩ | ⟨val, updated, -, -, -, -, h, -⟩
  · rw [h] at herr ⊢
    cases Option.some.inj herr
    refine ⟨rfl, rfl, rfl, fun _ => rfl, ?_⟩
    rintro ⟨c, hc | hc⟩ <;> cases hc
  · rw [h] at herr ⊢
    cases Option.some.inj herr
    refine ⟨rfl, rfl, rfl, fun _ => rfl, ?_⟩
    rintro ⟨c, hc | hc⟩ <;> cases hc
  · rw [h] at herr ⊢
    cases Option.some.inj herr
    refine ⟨rfl, rfl, rfl, fun _ => rfl, ?_⟩
    rintro ⟨c, hc | hc⟩ <;> cases hc
  · rw [h] at herr ⊢
    cases Option.some.inj herr
    refine ⟨rfl, applyDefault_Engine _ _ _ _, applyDefault_List _ _ _ _, ?_,
      fun _ => applyDefault_Default _ _ _ _⟩
    rintro (hc | hc | hc | hc)
    · cases hc
    · cases hc
    · cases hc
    · subst hc
      exact applyDefault_of_not_changed updateOpts farmName store
  · rw [h] at herr ⊢
    cases Option.some.inj herr
    refine ⟨rfl, applyDefault_Engine _ _ _ _, applyDefault_List _ _ _ _, ?_,
      fun _ => applyDefault_Default _ _ _ _⟩
    rintro (hc | hc | hc | hc)
    · cases hc
    · cases hc
    · cases hc
    · subst hc
      exact applyDefault_of_not_changed updateOpts farmName store
  · rw [h] at herr
    simp at herr

/-- C2 amended, at a run that fails in the removal loop after `--default=true`. -/
theorem farmUpdate_error_frame_witness :
    (farmUpdate MapRange.inOrder ⟨[], ["conX"], true⟩ true "farm1" scenarioCfg).err
      = some (.ConnectionNotInFarm "conX") ∧
    (farmUpdate MapRange.inOrder ⟨[], ["conX"], true⟩ true "farm1" scenarioCfg).stored
      = scenarioCfg ∧
    (farmUpdate MapRange.inOrder ⟨[], ["conX"], true⟩ true "farm1" scenarioCfg).cfg.Engine
      = scenarioCfg.Engine ∧
    (farmUpdate MapRange.inOrder ⟨[], ["conX"], true⟩ true "farm1" scenarioCfg).cfg.Farms.List
      = scenarioCfg.Farms.List ∧
    ((UpdateError.ConnectionNotInFarm "conX" = .NoOpRequest "farm1" ∨
        UpdateError.ConnectionNotInFarm "conX" = .NoFarmsExist ∨
        UpdateError.ConnectionNotInFarm "conX" = .FarmNotFound "farm1" ∨ true = false) →
      (farmUpdate MapRange.inOrder ⟨[], ["conX"], true⟩ true "farm1" scenarioCfg).cfg
        = scenarioCfg) ∧
    ((∃ c, UpdateError.ConnectionNotInFarm "conX" = .ConnectionNotInFarm c ∨
        UpdateError.ConnectionNotInFarm "conX" = .UnknownConnection c) →
      (farmUpdate MapRange.inOrder ⟨[], ["conX"], true⟩ true "farm1"
        scenarioCfg).cfg.Farms.Default =
        match directive ⟨[], ["conX"], true⟩ true with
        | .unchanged => scenarioCfg.Farms.Default
        | .setDefault => "farm1"
        | .clearDefault => "") :=
  ⟨by decide,
    farmUpdate_error_frame MapRange.inOrder ⟨[], ["conX"], true⟩ true "farm1" scenarioCfg
      (.ConnectionNotInFarm "conX") (by decide)⟩

/-- C3: when `farmName` exists and the remove list holds a name that is not a
member of the farm, `farmUpdate` fails with ConnectionNotInFarm of the first such
name, whatever the add list and the default flag are. -/
theorem farmUpdate_remove_non_member (it : MapRange) (updateOpts : UpdateOpts)
    (defChanged : Bool) (farmName : String) (store : Config D) (val pre post : Strings)
    (x : String)
    (hfarm : store.Farms.List.get? farmName = some val)
    (hsplit : updateOpts.Remove = pre ++ x :: post)
    (hpre : ∀ c ∈ pre, c ∈ val) (hx : x ∉ val) :
    (farmUpdate it updateOpts defChanged farmName store).err
      = some (.ConnectionNotInFarm x) := by
  rw [farmUpdate_of_bad_remove it updateOpts defChanged farmName store val pre post x
    hfarm hsplit hpre hx]

/-- C3, at remove = [con1, conX, conY] with an add list naming an unknown
connection: the error names conX. -/
theorem farmUpdate_remove_non_member_witness :
    scenarioCfg.Farms.List.get? "farm1" = some ["con1", "con2"] ∧
    (["con1", "conX", "conY"] : Strings) = ["con1"] ++ "conX" :: ["conY"] ∧
    (∀ c ∈ (["con1"] : Strings), c ∈ (["con1", "con2"] : Strings)) ∧
    "conX" ∉ (["con1", "con2"] : Strings) ∧
    (farmUpdate MapRange.inOrder ⟨["conZ"], ["con1", "conX", "conY"], false⟩ false "farm1"
      scenarioCfg).err = some (.ConnectionNotInFarm "conX") :=
  ⟨by decide, by decide, by decide, by decide,
    farmUpdate_remove_non_member MapRange.inOrder ⟨["conZ"], ["con1", "conX", "conY"], false⟩
      false "farm1" scenarioCfg ["con1", "con2"] ["con1"] ["conY"] "conX"
      (by decide) (by decide) (by decide) (by decide)⟩

/-- C4: when `farmName` exists, every name of the remove list is a member of the
farm, and the add list holds a name that is not a key of
`Engine.ServiceDestinations`, `farmUpdate` fails with UnknownConnection of the first
such name. -/
theorem farmUpdate_add_unknown (it : MapRange) (updateOpts : UpdateOpts)
    (defChanged : Bool) (farmName : String) (store : Config D) (val pre post : Strings)
    (y : String)
    (hfarm : store.Farms.List.get? farmName = some val)
    (hrem : ∀ c ∈ updateOpts.Remove, c ∈ val)
    (hsplit : updateOpts.Add = pre ++ y :: post)
    (hpre : ∀ c ∈ pre, c ∈ store.Engine.ServiceDestinations.keys)
    (hy : y ∉ store.Engine.ServiceDestinations.keys) :
    (farmUpdate it updateOpts defChanged farmName store).err
      = some (.UnknownConnection y) := by
  rw [farmUpdate_of_bad_add it updateOpts defChanged farmName store val pre post y
    hfarm hrem hsplit hpre hy]

/-- C4, at add = [con3, conY, conZ], remove = [con1]: the error names conY. -/
theorem farmUpdate_add_unknown_witness :
    scenarioCfg.Farms.List.get? "farm1" = some ["con1", "con2"] ∧
    (∀ c ∈ (["con1"] : Strings), c ∈ (["con1", "con2"] : Strings)) ∧
    (["con3", "conY", "conZ"] : Strings) = ["con3"] ++ "conY" :: ["conZ"] ∧
    (∀ c ∈ (["con3"] : Strings), c ∈ scenarioCfg.Engine.ServiceDestinations.keys) ∧
    "conY" ∉ scenarioCfg.Engine.ServiceDestinations.keys ∧
    (farmUpdate MapRange.inOrder ⟨["con3", "conY", "conZ"], ["con1"], false⟩ false "farm1"
      scenarioCfg).err = some (.UnknownConnection "conY") :=
  ⟨by decide, by decide, by decide, by decide, by decide,
    farmUpdate_add_unknown MapRange.inOrder ⟨["con3", "conY", "conZ"], ["con1"], false⟩
      false "farm1" scenarioCfg ["con1", "con2"] ["con3"] ["conZ"] "conY"
      (by decide) (by decide) (by decide) (by decide) (by decide)⟩

/-- C5: with an empty add list, an empty remove list and `--default` not given,
`farmUpdate` fails with NoOpRequest for every configuration and every farm name:
no other check is reached. -/
theorem farmUpdate_empty_request (it : MapRange) (updateOpts : UpdateOpts)
    (defChanged : Bool) (farmName : String) (store : Config D)
    (hadd : updateOpts.Add = []) (hrem : updateOpts.Remove = [])
    (hdef : defChanged = false) :
    (farmUpdate it updateOpts defChanged farmName store).err
      = some (.NoOpRequest farmName) := by
  rw [farmUpdate_of_empty_request it updateOpts defChanged farmName store hadd hrem hdef]

/-- C5, at an empty farm collection (and so a farm name that does not exist). -/
theorem farmUpdate_empty_request_witness :
    (⟨[], [], true⟩ : UpdateOpts).Add = [] ∧ (⟨[], [], true⟩ : UpdateOpts).Remove = [] ∧
    (farmUpdate MapRange.inOrder ⟨[], [], true⟩ false "nofarm"
      (⟨⟨GoMap.empty⟩, ⟨"", GoMap.empty⟩⟩ : Config Unit)).err
      = some (.NoOpRequest "nofarm") :=
  ⟨rfl, rfl,
    farmUpdate_empty_request MapRange.inOrder ⟨[], [], true⟩ false "nofarm"
      (⟨⟨GoMap.empty⟩, ⟨"", GoMap.empty⟩⟩ : Config Unit) rfl rfl rfl⟩

/-- C6: for a non-empty request, an empty `Farms.List` makes `farmUpdate` fail with
NoFarmsExist, whatever the farm name. -/
theorem farmUpdate_no_farms (it : MapRange) (updateOpts : UpdateOpts)
    (defChanged : Bool) (farmName : String) (store : Config D)
    (hreq : updateOpts.Add ≠ [] ∨ updateOpts.Remove ≠ [] ∨ defChanged = true)
    (hempty : store.Farms.List.len = 0) :
    (farmUpdate it updateOpts defChanged farmName store).err = some .NoFarmsExist := by
  rw [farmUpdate_of_no_farms it updateOpts defChanged farmName store hreq hempty]

/-- C6, at add = [con1] against a configuration without farms. -/
theorem farmUpdate_no_farms_witness :
    (⟨⟨GoMap.empty⟩, ⟨"", GoMap.empty⟩⟩ : Config Unit).Farms.List.len = 0 ∧
    (farmUpdate MapRange.inOrder ⟨["con1"], [], false⟩ false "farm1"
      (⟨⟨GoMap.empty⟩, ⟨"", GoMap.empty⟩⟩ : Config Unit)).err = some .NoFarmsExist :=
  ⟨rfl,
    farmUpdate_no_farms MapRange.inOrder ⟨["con1"], [], false⟩ false "farm1"
      (⟨⟨GoMap.empty⟩, ⟨"", GoMap.empty⟩⟩ : Config Unit) (Or.inl (by decide)) rfl⟩

/-- C7: for a non-empty request, a non-empty `Farms.List` that does not contain
`farmName` makes `farmUpdate` fail with FarmNotFound, whatever the add list, the
remove list and the default flag are. -/
theorem farmUpdate_farm_not_found (it : MapRange) (updateOpts : UpdateOpts)
    (defChanged : Bool) (farmName : String) (store : Config D)
    (hreq : updateOpts.Add ≠ [] ∨ updateOpts.Remove ≠ [] ∨ defChanged = true)
    (hnonempty : store.Farms.List.len ≠ 0)
    (hfarm : farmName ∉ store.Farms.List.keys) :
    (farmUpdate it updateOpts defChanged farmName store).err
      = some (.FarmNotFound farmName) := by
  rw [farmUpdate_of_farm_missing it updateOpts defChanged farmName store hreq hnonempty hfarm]

/-- C7, at farm2 with a remove list and an add list that would both be rejected. -/
theorem farmUpdate_farm_not_found_witness :
    scenarioCfg.Farms.List.len ≠ 0 ∧ "farm2" ∉ scenarioCfg.Farms.List.keys ∧
    (farmUpdate MapRange.inOrder ⟨["conY"], ["conX"], false⟩ true "farm2" scenarioCfg).err
      = some (.FarmNotFound "farm2") :=
  ⟨by decide, by decide,
    farmUpdate_farm_not_found MapRange.inOrder ⟨["conY"], ["conX"], false⟩ true "farm2"
      scenarioCfg (Or.inl (by decide)) (by decide) (by decide)⟩

/-- C8: when `farmUpdate` succeeds, the resulting `Farms.Default` is fixed by the
directive: unchanged keeps the input value, set makes it `farmName`, clear makes it
the empty string. -/
theorem farmUpdate_default (it : MapRange) (updateOpts : UpdateOpts)
    (defChanged : Bool) (farmName : String) (store : Config D)
    (hok : (farmUpdate it updateOpts defChanged farmName store).err = none) :
    (farmUpdate it updateOpts defChanged farmName store).cfg.Farms.Default =
      match directive updateOpts defChanged with
      | .unchanged => store.Farms.Default
      | .setDefault => farmName
      | .clearDefault => "" := by
  obtain ⟨val, updated, -, -, -, -, hrun, -⟩ :=
    farmUpdate_ok_inv it updateOpts defChanged farmName store hok
  rw [hrun]
  exact applyDefault_Default updateOpts defChanged farmName store

/-- C8, at the scenario of the spec: farm1 exists, `Farms.Default` = "",
`--default=true` gives `Farms.Default` = "farm1". -/
theorem farmUpdate_default_witness :
    scenarioCfg.Farms.Default = "" ∧
    (farmUpdate MapRange.inOrder ⟨[], [], true⟩ true "farm1" scenarioCfg).err = none ∧
    (farmUpdate MapRange.inOrder ⟨[], [], true⟩ true "farm1" scenarioCfg).cfg.Farms.Default
      = "farm1" :=
  ⟨rfl, by decide,
    farmUpdate_default MapRange.inOrder ⟨[], [], true⟩ true "farm1" scenarioCfg (by decide)⟩

/-- C9: when `farmUpdate` succeeds, every name of the add list is in the farm's
final connection list; in particular a name that is in both the add list and the
remove list ends up present. -/
theorem farmUpdate_added_present (it : MapRange) (updateOpts : UpdateOpts)
    (defChanged : Bool) (farmName : String) (store : Config D)
    (hok : (farmUpdate it updateOpts defChanged farmName store).err = none) :
    ∃ updated,
      (farmUpdate it updateOpts defChanged farmName store).cfg.Farms.List.get? farmName
        = some updated ∧
      (∀ n ∈ updateOpts.Add, n ∈ updated) ∧
      (∀ n, n ∈ updateOpts.Add → n ∈ updateOpts.Remove → n ∈ updated) := by
  obtain ⟨val, updated, -, -, -, -, hrun, hmem⟩ :=
    farmUpdate_ok_inv it updateOpts defChanged farmName store hok
  refine ⟨updated, ?_, ?_, ?_⟩
  · rw [hrun]
    exact withConnections_get? _ farmName updated
  · exact fun n hn => (hmem n).2 (Or.inr hn)
  · exact fun n hn _ => (hmem n).2 (Or.inr hn)

/-- C9, at add = [con1], remove = [con1]: con1 is still in farm1. -/
theorem farmUpdate_added_present_witness :
    (farmUpdate MapRange.backwards ⟨["con1"], ["con1"], false⟩ false "farm1" scenarioCfg).err
      = none ∧
    ∃ updated,
      (farmUpdate MapRange.backwards ⟨["con1"], ["con1"], false⟩ false "farm1"
        scenarioCfg).cfg.Farms.List.get? "farm1" = some updated ∧
      (∀ n ∈ (["con1"] : Strings), n ∈ updated) ∧
      (∀ n, n ∈ (["con1"] : Strings) → n ∈ (["con1"] : Strings) → n ∈ updated) :=
  ⟨by decide,
    farmUpdate_added_present MapRange.backwards ⟨["con1"], ["con1"], false⟩ false "farm1"
      scenarioCfg (by decide)⟩

/-- C10, as stated, fails: remove = [con1] succeeds on farm1 = {con1, con2}, and
the same request applied to the configuration it produced is rejected, because con1
is no longer a member. -/
theorem farmUpdate_second_run_fails :
    (farmUpdate MapRange.inOrder ⟨[], ["con1"], false⟩ false "farm1" scenarioCfg).err = none ∧
    (farmUpdate MapRange.inOrder ⟨[], ["con1"], false⟩ false "farm1"
      (farmUpdate MapRange.inOrder ⟨[], ["con1"], false⟩ false "farm1" scenarioCfg).cfg).err
      = some (.ConnectionNotInFarm "con1") := by
  decide

/-- C10, amended: after a successful run, the same request applied to the
configuration it produced succeeds exactly when every name of the remove list is
also in the add list (in particular when the remove list is empty); it then yields
the same connection set for the farm and the same default-farm field.  Otherwise
the second run fails with ConnectionNotInFarm of a removed name that is not
re-added, and writes nothing. -/
theorem farmUpdate_twice (it₁ it₂ : MapRange) (updateOpts : UpdateOpts)
    (defChanged : Bool) (farmName : String) (store : Config D)
    (hok : (farmUpdate it₁ updateOpts defChanged farmName store).err = none) :
    ((farmUpdate it₂ updateOpts defChanged farmName
        (farmUpdate it₁ updateOpts defChanged farmName store).cfg).err = none ↔
      ∀ c ∈ updateOpts.Remove, c ∈ updateOpts.Add) ∧
    ((∀ c ∈ updateOpts.Remove, c ∈ updateOpts.Add) →
      ∃ first second,
        (farmUpdate it₁ updateOpts defChanged farmName store).cfg.Farms.List.get? farmName
          = some first ∧
        (farmUpdate it₂ updateOpts defChanged farmName
          (farmUpdate it₁ updateOpts defChanged farmName store).cfg).cfg.Farms.List.get? farmName
          = some second ∧
        second.toFinset = first.toFinset ∧
        (farmUpdate it₂ updateOpts defChanged farmName
          (farmUpdate it₁ updateOpts defChanged farmName store).cfg).cfg.Farms.Default
          = (farmUpdate it₁ updateOpts defChanged farmName store).cfg.Farms.Default) ∧
    (¬ (∀ c ∈ updateOpts.Remove, c ∈ updateOpts.Add) →
      ∃ x, x ∈ updateOpts.Remove ∧ x ∉ updateOpts.Add ∧
        (farmUpdate it₂ updateOpts defChanged farmName
          (farmUpdate it₁ updateOpts defChanged farmName store).cfg).err
          = some (.ConnectionNotInFarm x) ∧
        (farmUpdate it₂ updateOpts defChanged farmName
          (farmUpdate it₁ updateOpts defChanged farmName store).cfg).stored
          = (farmUpdate it₁ updateOpts defChanged farmName store).cfg) := by
  obtain ⟨val, first, hreq, -, -, hadd, hrun, hmem⟩ :=
    farmUpdate_ok_inv it₁ updateOpts defChanged farmName store hok
  rw [hrun]
  simp only
  generalize hmid :
    withConnections (applyDefault updateOpts defChanged farmName store) farmName first = mid
  have hfirst : mid.Farms.List.get? farmName = some first := by
    rw [← hmid]; exact withConnections_get? _ farmName first
  have hengine : mid.Engine = store.Engine := by
    rw [← hmid, withConnections_Engine, applyDefault_Engine]
  have hadd' : ∀ c ∈ updateOpts.Add, c ∈ mid.Engine.ServiceDestinations.keys := by
    rw [hengine]; exact hadd
  have hdefault : mid.Farms.Default =
      match directive updateOpts defChanged with
      | .unchanged => store.Farms.Default
      | .setDefault => farmName
      | .clearDefault => "" := by
    rw [← hmid, withConnections_Default]
    exact applyDefault_Default updateOpts defChanged farmName store
  have hgood : (∀ c ∈ updateOpts.Remove, c ∈ updateOpts.Add) →
      ∃ second,
        (farmUpdate it₂ updateOpts defChanged farmName mid).err = none ∧
        (farmUpdate it₂ updateOpts defChanged farmName mid).cfg.Farms.List.get? farmName
          = some second ∧
        second.toFinset = first.toFinset ∧
        (farmUpdate it₂ updateOpts defChanged farmName mid).cfg.Farms.Default
          = mid.Farms.Default := by
    intro hsub
    have hrem' : ∀ c ∈ updateOpts.Remove, c ∈ first :=
      fun c hc => (hmem c).2 (Or.inr (hsub c hc))
    obtain ⟨second, hrun₂, hmem₂⟩ := farmUpdate_of_valid it₂ updateOpts defChanged farmName
      mid first hreq hfirst hrem' hadd'
    refine ⟨second, by rw [hrun₂], ?_, ?_, ?_⟩
    · rw [hrun₂]
      exact withConnections_get? _ farmName second
    · ext n
      simp only [List.mem_toFinset]
      rw [hmem₂ n, hmem n]
      tauto
    · rw [hrun₂, withConnections_Default, applyDefault_Default, hdefault]
      cases directive updateOpts defChanged <;> rfl
  have hbad : ¬ (∀ c ∈ updateOpts.Remove, c ∈ updateOpts.Add) →
      ∃ x, x ∈ updateOpts.Remove ∧ x ∉ updateOpts.Add ∧
        farmUpdate it₂ updateOpts defChanged farmName mid
          = ⟨applyDefault updateOpts defChanged farmName mid, mid,
             some (.ConnectionNotInFarm x)⟩ := by
    intro hsub
    rcases split_at_first_not (fun c => c ∈ first) updateOpts.Remove with
      hall | ⟨pre, x, post, hsplit, hpre, hx⟩
    · refine absurd (fun c hc => ?_) hsub
      rcases (hmem c).1 (hall c hc) with ⟨-, hnot⟩ | hin
      · exact absurd hc hnot
      · exact hin
    · refine ⟨x, by simp [hsplit], fun hin => hx ((hmem x).2 (Or.inr hin)), ?_⟩
      exact farmUpdate_of_bad_remove it₂ updateOpts defChanged farmName mid first pre post x
        hfirst hsplit hpre hx
  refine ⟨⟨fun hok₂ => ?_, fun hsub => ?_⟩, fun hsub => ?_, fun hsub => ?_⟩
  · by_contra hsub
    obtain ⟨x, -, -, hrun₂⟩ := hbad hsub
    rw [hrun₂] at hok₂
    simp at hok₂
  · obtain ⟨second, herr, -⟩ := hgood hsub
    exact herr
  · obtain ⟨second, -, hget, hset, hdef⟩ := hgood hsub
    exact ⟨first, second, hfirst, hget, hset, hdef⟩
  · obtain ⟨x, hx₁, hx₂, hrun₂⟩ := hbad hsub
    exact ⟨x, hx₁, hx₂, by rw [hrun₂], by rw [hrun₂]⟩

/-- C10 amended, at add = [con3, con1], remove = [con1], `--default=true`, with two
different iteration orders. -/
theorem farmUpdate_twice_witness :
    (farmUpdate MapRange.inOrder ⟨["con3", "con1"], ["con1"], true⟩ true "farm1"
      scenarioCfg).err = none ∧
    (farmUpdate MapRange.backwards ⟨["con3", "con1"], ["con1"], true⟩ true "farm1"
      (farmUpdate MapRange.inOrder ⟨["con3", "con1"], ["con1"], true⟩ true "farm1"
        scenarioCfg).cfg).err = none :=
  ⟨by decide,
    (farmUpdate_twice MapRange.inOrder MapRange.backwards ⟨["con3", "con1"], ["con1"], true⟩
      true "farm1" scenarioCfg (by decide)).1.2 (by decide)⟩

/-! ## Distinct keys of the working map -/

theorem GoMap.nodup_map_fst_setEntries {α : Type} (k : String) (v : α)
    (es : List (String × α)) (h : (es.map Prod.fst).Nodup) :
    ((GoMap.setEntries k v es).map Prod.fst).Nodup := by
  induction es with
  | nil => simp [GoMap.setEntries]
  | cons e rest ih =>
    obtain ⟨k₀, v₀⟩ := e
    have hrest : (rest.map Prod.fst).Nodup := (List.nodup_cons.1 h).2
    have hk₀ : k₀ ∉ rest.map Prod.fst := (List.nodup_cons.1 h).1
    by_cases hk : k₀ = k
    · subst hk
      simpa [GoMap.setEntries] using h
    · simp only [GoMap.setEntries, hk, if_false, List.map_cons]
      refine List.nodup_cons.2 ⟨?_, ih hrest⟩
      rw [GoMap.mem_map_fst_setEntries]
      rintro (h' | h')
      · exact hk h'
      · exact hk₀ h'

theorem GoMap.nodup_keys_set {α : Type} (m : GoMap α) (k : String) (v : α)
    (h : m.keys.Nodup) : (m.set k v).keys.Nodup :=
  GoMap.nodup_map_fst_setEntries k v m.entries h

theorem GoMap.nodup_keys_delete {α : Type} (m : GoMap α) (k : String)
    (h : m.keys.Nodup) : (m.delete k).keys.Nodup := by
  unfold GoMap.delete GoMap.keys
  exact List.Nodup.sublist (List.Sublist.map Prod.fst (List.filter_sublist m.entries)) h

theorem nodup_keys_fillLoop (val : Strings) (cMap : GoMap Int) (h : cMap.keys.Nodup) :
    (fillLoop val cMap).keys.Nodup := by
  induction val generalizing cMap with
  | nil => exact h
  | cons c rest ih => exact ih (cMap.set c 0) (GoMap.nodup_keys_set cMap c 0 h)

theorem nodup_keys_removeLoop (cfg : Config D) (farmName : String) (remove : Strings)
    (cMap cMap' : GoMap Int) (hrun : removeLoop cfg farmName remove cMap = .ok cMap')
    (h : cMap.keys.Nodup) : cMap'.keys.Nodup := by
  induction remove generalizing cMap with
  | nil =>
    simp only [removeLoop, Except.ok.injEq] at hrun
    exact hrun ▸ h
  | cons c rest ih =>
    simp only [removeLoop] at hrun
    split at hrun
    · exact ih (cMap.delete c) hrun (GoMap.nodup_keys_delete cMap c h)
    · cases hrun

theorem nodup_keys_addLoop (cfg : Config D) (add : Strings)
    (cMap cMap' : GoMap Int) (hrun : addLoop cfg add cMap = .ok cMap')
    (h : cMap.keys.Nodup) : cMap'.keys.Nodup := by
  induction add generalizing cMap with
  | nil =>
    simp only [addLoop, Except.ok.injEq] at hrun
    exact hrun ▸ h
  | cons c rest ih =>
    simp only [addLoop] at hrun
    split at hrun
    · split at hrun
      · exact ih (cMap.set c 0) hrun (GoMap.nodup_keys_set cMap c 0 h)
      · exact ih cMap hrun h
    · cases hrun

/-- A membership block that ends without error leaves a duplicate-free list under
`farmName`. -/
theorem updateConnections_nodup (it : MapRange) (updateOpts : UpdateOpts)
    (farmName : String) (cfg cfg' : Config D) (val : Strings)
    (hval : cfg.Farms.List.get? farmName = some val)
    (hrun : updateConnections it updateOpts farmName cfg = (cfg', none)) :
    ∃ updated, cfg'.Farms.List.get? farmName = some updated ∧ updated.Nodup := by
  simp only [updateConnections, hval] at hrun
  cases h₁ : removeLoop cfg farmName updateOpts.Remove (fillLoop val GoMap.empty) with
  | error e =>
    rw [h₁] at hrun
    simp at hrun
  | ok m₁ =>
    rw [h₁] at hrun
    simp only at hrun
    cases h₂ : addLoop cfg updateOpts.Add m₁ with
    | error e =>
      rw [h₂] at hrun
      simp at hrun
    | ok m₂ =>
      rw [h₂] at hrun
      simp only [Prod.mk.injEq, and_true] at hrun
      subst hrun
      have hfill : (fillLoop val GoMap.empty).keys.Nodup :=
        nodup_keys_fillLoop val GoMap.empty (by simp [GoMap.keys_empty])
      have hm₁ := nodup_keys_removeLoop cfg farmName updateOpts.Remove _ m₁ h₁ hfill
      have hm₂ := nodup_keys_addLoop cfg updateOpts.Add m₁ m₂ h₂ hm₁
      refine ⟨collectKeys it m₂, withConnections_get? cfg farmName _, ?_⟩
      unfold collectKeys
      exact (it.perm m₂.keys).nodup_iff.2 hm₂

/-- A successful run leaves a duplicate-free list under `farmName`. -/
theorem farmUpdate_ok_nodup (it : MapRange) (updateOpts : UpdateOpts)
    (defChanged : Bool) (farmName : String) (store : Config D)
    (hok : (farmUpdate it updateOpts defChanged farmName store).err = none) :
    ∃ updated,
      (farmUpdate it updateOpts defChanged farmName store).cfg.Farms.List.get? farmName
        = some updated ∧ updated.Nodup := by
  obtain ⟨val, updated, -, hval, hrem, hadd, hrun, -⟩ :=
    farmUpdate_ok_inv it updateOpts defChanged farmName store hok
  have hval' : (applyDefault updateOpts defChanged farmName store).Farms.List.get? farmName
      = some val := by rw [applyDefault_List]; exact hval
  have hadd' : ∀ c ∈ updateOpts.Add,
      c ∈ (applyDefault updateOpts defChanged farmName store).Engine.ServiceDestinations.keys := by
    rw [applyDefault_Engine]; exact hadd
  obtain ⟨updated', hrun', -⟩ := updateConnections_ok it updateOpts farmName
    (applyDefault updateOpts defChanged farmName store) val hval' hrem hadd'
  obtain ⟨u, hget, hnodup⟩ := updateConnections_nodup it updateOpts farmName _ _ val hval' hrun'
  have hfu := farmUpdate_of_farm_present it updateOpts defChanged farmName store val
    (by
      rcases farmUpdate_ok_inv it updateOpts defChanged farmName store hok with
        ⟨_, _, hreq, -⟩
      exact hreq) hval
  rw [hrun'] at hfu
  refine ⟨u, ?_, hnodup⟩
  rw [hfu]
  exact hget

/-- The farm names of a configuration after its target farm was overwritten. -/
theorem withConnections_keys (cfg : Config D) (farmName : String) (updated : Strings)
    (h : farmName ∈ cfg.Farms.List.keys) :
    (withConnections cfg farmName updated).Farms.List.keys = cfg.Farms.List.keys := by
  unfold withConnections
  exact GoMap.keys_set_of_mem cfg.Farms.List farmName updated h

theorem withConnections_get?_ne (cfg : Config D) (farmName : String) (updated : Strings)
    (k : String) (hne : k ≠ farmName) :
    (withConnections cfg farmName updated).Farms.List.get? k = cfg.Farms.List.get? k := by
  unfold withConnections
  exact GoMap.get?_set_ne cfg.Farms.List farmName updated k hne

/-! ## The claims, continued -/

/-- C11, as stated, fails: conZ is a member of farm1 but not a key of the registry,
and the request add = [conZ], remove = [] is rejected with UnknownConnection. -/
theorem farmUpdate_readd_dangling_fails :
    danglingCfg.Farms.List.get? "farm1" = some ["conZ", "con1"] ∧
    "conZ" ∈ (["conZ", "con1"] : Strings) ∧
    (farmUpdate MapRange.inOrder ⟨["conZ"], [], false⟩ false "farm1" danglingCfg).err
      = some (.UnknownConnection "conZ") := by
  decide

/-- C11, amended: when `farmName` exists and `n` is a member of the farm and a key of
`Engine.ServiceDestinations`, the request add = [n], remove = [] succeeds and leaves
the farm's connection set equal, as a set, to the original one. -/
theorem farmUpdate_readd_member (it : MapRange) (updateOpts : UpdateOpts)
    (defChanged : Bool) (farmName : String) (store : Config D) (val : Strings) (n : String)
    (hfarm : store.Farms.List.get? farmName = some val)
    (hn : n ∈ val)
    (hreg : n ∈ store.Engine.ServiceDestinations.keys)
    (hadd : updateOpts.Add = [n]) (hrem : updateOpts.Remove = []) :
    (farmUpdate it updateOpts defChanged farmName store).err = none ∧
    ∃ updated,
      (farmUpdate it updateOpts defChanged farmName store).cfg.Farms.List.get? farmName
        = some updated ∧
      updated.toFinset = val.toFinset := by
  have hreq : updateOpts.Add ≠ [] ∨ updateOpts.Remove ≠ [] ∨ defChanged = true :=
    Or.inl (by simp [hadd])
  have hrem' : ∀ c ∈ updateOpts.Remove, c ∈ val := by simp [hrem]
  have hadd' : ∀ c ∈ updateOpts.Add, c ∈ store.Engine.ServiceDestinations.keys := by
    intro c hc
    rw [hadd, List.mem_singleton] at hc
    exact hc ▸ hreg
  obtain ⟨updated, hrun, hmem⟩ := farmUpdate_of_valid it updateOpts defChanged farmName
    store val hreq hfarm hrem' hadd'
  refine ⟨by rw [hrun], updated, ?_, ?_⟩
  · rw [hrun]
    exact withConnections_get? _ farmName updated
  · ext c
    simp only [List.mem_toFinset]
    rw [hmem c, hadd, hrem, List.mem_singleton]
    constructor
    · rintro (⟨h, -⟩ | h)
      · exact h
      · exact h ▸ hn
    · exact fun h => Or.inl ⟨h, List.not_mem_nil c⟩

/-- C11 amended, at farm1 = {con1, con2} and add = [con1]. -/
theorem farmUpdate_readd_member_witness :
    (farmUpdate MapRange.inOrder ⟨["con1"], [], false⟩ false "farm1" scenarioCfg).err = none ∧
    ∃ updated,
      (farmUpdate MapRange.inOrder ⟨["con1"], [], false⟩ false "farm1"
        scenarioCfg).cfg.Farms.List.get? "farm1" = some updated ∧
      updated.toFinset = (["con1", "con2"] : Strings).toFinset :=
  farmUpdate_readd_member MapRange.inOrder ⟨["con1"], [], false⟩ false "farm1" scenarioCfg
    ["con1", "con2"] "con1" (by decide) (by decide) (by decide) rfl rfl

/-- C12: when `farmUpdate` succeeds, the target farm's resulting connection list
contains no name twice, whatever the add list repeats and whatever duplicates the
original list had. -/
theorem farmUpdate_no_duplicates (it : MapRange) (updateOpts : UpdateOpts)
    (defChanged : Bool) (farmName : String) (store : Config D)
    (hok : (farmUpdate it updateOpts defChanged farmName store).err = none) :
    ∃ updated,
      (farmUpdate it updateOpts defChanged farmName store).cfg.Farms.List.get? farmName
        = some updated ∧ updated.Nodup :=
  farmUpdate_ok_nodup it updateOpts defChanged farmName store hok

/-- C12, at farm1 = [con1, con1, con2] with add = [con3, con3, con2]: the result is
[con3, con2, con1]. -/
theorem farmUpdate_no_duplicates_witness :
    (farmUpdate MapRange.backwards ⟨["con3", "con3", "con2"], [], false⟩ false "farm1"
      dupCfg).err = none ∧
    (farmUpdate MapRange.backwards ⟨["con3", "con3", "con2"], [], false⟩ false "farm1"
      dupCfg).cfg.Farms.List.get? "farm1" = some ["con3", "con2", "con1"] ∧
    ∃ updated,
      (farmUpdate MapRange.backwards ⟨["con3", "con3", "con2"], [], false⟩ false "farm1"
        dupCfg).cfg.Farms.List.get? "farm1" = some updated ∧ updated.Nodup :=
  ⟨by decide, by decide,
    farmUpdate_no_duplicates MapRange.backwards ⟨["con3", "con3", "con2"], [], false⟩ false
      "farm1" dupCfg (by decide)⟩

/-- C13: when every name of the target farm's connection list is a key of
`Engine.ServiceDestinations` and `farmUpdate` succeeds, every name of the farm's
resulting connection list is a key of the (resulting) registry. -/
theorem farmUpdate_registry_invariant (it : MapRange) (updateOpts : UpdateOpts)
    (defChanged : Bool) (farmName : String) (store : Config D) (val : Strings)
    (hfarm : store.Farms.List.get? farmName = some val)
    (hinv : ∀ c ∈ val, c ∈ store.Engine.ServiceDestinations.keys)
    (hok : (farmUpdate it updateOpts defChanged farmName store).err = none) :
    ∃ updated,
      (farmUpdate it updateOpts defChanged farmName store).cfg.Farms.List.get? farmName
        = some updated ∧
      ∀ c ∈ updated,
        c ∈ (farmUpdate it updateOpts defChanged farmName
          store).cfg.Engine.ServiceDestinations.keys := by
  obtain ⟨val', updated, -, hval', -, hadd, hrun, hmem⟩ :=
    farmUpdate_ok_inv it updateOpts defChanged farmName store hok
  have hvv : val' = val := Option.some.inj (hval'.symm.trans hfarm)
  subst hvv
  refine ⟨updated, ?_, ?_⟩
  · rw [hrun]
    exact withConnections_get? _ farmName updated
  · intro c hc
    rw [hrun]
    simp only [withConnections_Engine, applyDefault_Engine]
    rcases (hmem c).1 hc with ⟨h, -⟩ | h
    · exact hinv c h
    · exact hadd c h

/-- C13, at the scenario of the spec with add = [con3], remove = [con1]. -/
theorem farmUpdate_registry_invariant_witness :
    (∀ c ∈ (["con1", "con2"] : Strings), c ∈ scenarioCfg.Engine.ServiceDestinations.keys) ∧
    ∃ updated,
      (farmUpdate MapRange.inOrder ⟨["con3"], ["con1"], false⟩ false "farm1"
        scenarioCfg).cfg.Farms.List.get? "farm1" = some updated ∧
      ∀ c ∈ updated,
        c ∈ (farmUpdate MapRange.inOrder ⟨["con3"], ["con1"], false⟩ false "farm1"
          scenarioCfg).cfg.Engine.ServiceDestinations.keys :=
  ⟨by decide,
    farmUpdate_registry_invariant MapRange.inOrder ⟨["con3"], ["con1"], false⟩ false "farm1"
      scenarioCfg ["con1", "con2"] (by decide) (by decide) (by decide)⟩

/-- C14: when `Farms.Default` is empty or names a farm of `Farms.List` and `farmUpdate`
succeeds, the resulting `Farms.Default` is empty or names a farm of the resulting
`Farms.List`. -/
theorem farmUpdate_default_invariant (it : MapRange) (updateOpts : UpdateOpts)
    (defChanged : Bool) (farmName : String) (store : Config D)
    (hinv : store.Farms.Default = "" ∨ store.Farms.Default ∈ store.Farms.List.keys)
    (hok : (farmUpdate it updateOpts defChanged farmName store).err = none) :
    (farmUpdate it updateOpts defChanged farmName store).cfg.Farms.Default = "" ∨
    (farmUpdate it updateOpts defChanged farmName store).cfg.Farms.Default
      ∈ (farmUpdate it updateOpts defChanged farmName store).cfg.Farms.List.keys := by
  obtain ⟨val, updated, -, hval, -, -, hrun, -⟩ :=
    farmUpdate_ok_inv it updateOpts defChanged farmName store hok
  have hkey : farmName ∈ store.Farms.List.keys := GoMap.mem_keys_of_get? hval
  have hkey' : farmName ∈ (applyDefault updateOpts defChanged farmName store).Farms.List.keys := by
    rw [applyDefault_List]; exact hkey
  rw [hrun]
  simp only [withConnections_Default]
  rw [withConnections_keys _ farmName updated hkey', applyDefault_List, applyDefault_Default]
  cases directive updateOpts defChanged
  · exact hinv
  · exact Or.inr hkey
  · exact Or.inl rfl

/-- C14, at a configuration whose default is farm2, updated with `--default=true` on
farm1. -/
theorem farmUpdate_default_invariant_witness :
    (dupCfg.Farms.Default = "" ∨ dupCfg.Farms.Default ∈ dupCfg.Farms.List.keys) ∧
    ((farmUpdate MapRange.inOrder ⟨[], ["con2"], true⟩ true "farm1" dupCfg).cfg.Farms.Default
        = "" ∨
      (farmUpdate MapRange.inOrder ⟨[], ["con2"], true⟩ true "farm1" dupCfg).cfg.Farms.Default
        ∈ (farmUpdate MapRange.inOrder ⟨[], ["con2"], true⟩ true "farm1"
            dupCfg).cfg.Farms.List.keys) :=
  ⟨by decide,
    farmUpdate_default_invariant MapRange.inOrder ⟨[], ["con2"], true⟩ true "farm1" dupCfg
      (by decide) (by decide)⟩

/-- C15: when `farmUpdate` succeeds, the farm names of `Farms.List` are unchanged, the
connection list of every farm other than `farmName` is unchanged, and
`Engine.ServiceDestinations` (the whole `Engine` section) is unchanged. -/
theorem farmUpdate_frame (it : MapRange) (updateOpts : UpdateOpts)
    (defChanged : Bool) (farmName : String) (store : Config D)
    (hok : (farmUpdate it updateOpts defChanged farmName store).err = none) :
    (farmUpdate it updateOpts defChanged farmName store).cfg.Farms.List.keys
      = store.Farms.List.keys ∧
    (∀ k, k ≠ farmName →
      (farmUpdate it updateOpts defChanged farmName store).cfg.Farms.List.get? k
        = store.Farms.List.get? k) ∧
    (farmUpdate it updateOpts defChanged farmName store).cfg.Engine = store.Engine := by
  obtain ⟨val, updated, -, hval, -, -, hrun, -⟩ :=
    farmUpdate_ok_inv it updateOpts defChanged farmName store hok
  have hkey' : farmName ∈ (applyDefault updateOpts defChanged farmName store).Farms.List.keys := by
    rw [applyDefault_List]; exact GoMap.mem_keys_of_get? hval
  rw [hrun]
  refine ⟨?_, ?_, ?_⟩
  · simp only
    rw [withConnections_keys _ farmName updated hkey', applyDefault_List]
  · intro k hk
    simp only
    rw [withConnections_get?_ne _ farmName updated k hk, applyDefault_List]
  · simp only [withConnections_Engine, applyDefault_Engine]

/-- C15, at a configuration with two farms: updating farm1 leaves farm2 = [con3]. -/
theorem farmUpdate_frame_witness :
    (farmUpdate MapRange.inOrder ⟨["con3"], ["con2"], true⟩ true "farm1" dupCfg).cfg.Farms.List.get?
      "farm2" = some ["con3"] ∧
    (farmUpdate MapRange.inOrder ⟨["con3"], ["con2"], true⟩ true "farm1" dupCfg).cfg.Farms.List.keys
      = dupCfg.Farms.List.keys ∧
    (∀ k, k ≠ "farm1" →
      (farmUpdate MapRange.inOrder ⟨["con3"], ["con2"], true⟩ true "farm1"
        dupCfg).cfg.Farms.List.get? k = dupCfg.Farms.List.get? k) ∧
    (farmUpdate MapRange.inOrder ⟨["con3"], ["con2"], true⟩ true "farm1" dupCfg).cfg.Engine
      = dupCfg.Engine :=
  ⟨by decide,
    farmUpdate_frame MapRange.inOrder ⟨["con3"], ["con2"], true⟩ true "farm1" dupCfg
      (by decide)⟩

/-- C16: `farmUpdate` succeeds if and only if (1) the add list or the remove list is
non-empty or `--default` was given, (2) `farmName` is a key of `Farms.List`, (3) every
name of the remove list is in the farm's original connection list, and (4) every
name of the add list is a key of `Engine.ServiceDestinations`. -/
theorem farmUpdate_ok_iff (it : MapRange) (updateOpts : UpdateOpts)
    (defChanged : Bool) (farmName : String) (store : Config D) :
    (farmUpdate it updateOpts defChanged farmName store).err = none ↔
      (updateOpts.Add ≠ [] ∨ updateOpts.Remove ≠ [] ∨ defChanged = true) ∧
      farmName ∈ store.Farms.List.keys ∧
      (∀ c ∈ updateOpts.Remove, c ∈ (store.Farms.List.get? farmName).getD []) ∧
      (∀ c ∈ updateOpts.Add, c ∈ store.Engine.ServiceDestinations.keys) := by
  constructor
  · intro hok
    obtain ⟨val, updated, hreq, hval, hrem, hadd, -, -⟩ :=
      farmUpdate_ok_inv it updateOpts defChanged farmName store hok
    refine ⟨hreq, GoMap.mem_keys_of_get? hval, ?_, hadd⟩
    rw [hval]
    exact hrem
  · rintro ⟨hreq, hkey, hrem, hadd⟩
    obtain ⟨val, hval⟩ := GoMap.get?_isSome_of_mem_keys hkey
    rw [hval] at hrem
    obtain ⟨updated, hrun, -⟩ := farmUpdate_of_valid it updateOpts defChanged farmName
      store val hreq hval hrem hadd
    rw [hrun]

/-- C17, as stated, fails: con1 is a member of farm1, is listed twice in the remove
list and not in the (empty, hence valid) add list, yet the run does not succeed: it
fails on the other removed name conX. -/
theorem farmUpdate_repeated_remove_other_fails :
    scenarioCfg.Farms.List.get? "farm1" = some ["con1", "con2"] ∧
    "con1" ∈ (["con1", "con2"] : Strings) ∧
    2 ≤ (["con1", "con1", "conX"] : Strings).count "con1" ∧
    (farmUpdate MapRange.inOrder ⟨[], ["con1", "con1", "conX"], false⟩ false "farm1"
      scenarioCfg).err = some (.ConnectionNotInFarm "conX") := by
  decide

/-- C17, amended: for a farm containing `n` and a request whose remove list lists `n`
two or more times and whose add list does not contain `n`, the run never fails with
ConnectionNotInFarm of `n`; when moreover every name of the remove list is a member
of the farm and every name of the add list is a key of the registry, it succeeds
and `n` is absent from the final list. -/
theorem farmUpdate_repeated_remove (it : MapRange) (updateOpts : UpdateOpts)
    (defChanged : Bool) (farmName : String) (store : Config D) (val : Strings) (n : String)
    (hfarm : store.Farms.List.get? farmName = some val)
    (hn : n ∈ val)
    (htwice : 2 ≤ updateOpts.Remove.count n)
    (hnadd : n ∉ updateOpts.Add) :
    (farmUpdate it updateOpts defChanged farmName store).err
      ≠ some (.ConnectionNotInFarm n) ∧
    ((∀ c ∈ updateOpts.Remove, c ∈ val) →
      (∀ c ∈ updateOpts.Add, c ∈ store.Engine.ServiceDestinations.keys) →
      (farmUpdate it updateOpts defChanged farmName store).err = none ∧
      ∃ updated,
        (farmUpdate it updateOpts defChanged farmName store).cfg.Farms.List.get? farmName
          = some updated ∧
        n ∉ updated) := by
  have hnrem : n ∈ updateOpts.Remove := List.count_pos_iff.1 (by omega)
  have hreq : updateOpts.Add ≠ [] ∨ updateOpts.Remove ≠ [] ∨ defChanged = true :=
    Or.inr (Or.inl (List.ne_nil_of_mem hnrem))
  have hvalid : (∀ c ∈ updateOpts.Remove, c ∈ val) →
      (∀ c ∈ updateOpts.Add, c ∈ store.Engine.ServiceDestinations.keys) →
      (farmUpdate it updateOpts defChanged farmName store).err = none ∧
      ∃ updated,
        (farmUpdate it updateOpts defChanged farmName store).cfg.Farms.List.get? farmName
          = some updated ∧
        n ∉ updated := by
    intro hrem hadd
    obtain ⟨updated, hrun, hmem⟩ := farmUpdate_of_valid it updateOpts defChanged farmName
      store val hreq hfarm hrem hadd
    refine ⟨by rw [hrun], updated, ?_, ?_⟩
    · rw [hrun]
      exact withConnections_get? _ farmName updated
    · intro hin
      rcases (hmem n).1 hin with ⟨-, hnot⟩ | h
      · exact hnot hnrem
      · exact hnadd h
  refine ⟨?_, hvalid⟩
  rcases split_at_first_not (fun c => c ∈ val) updateOpts.Remove with
    hrem | ⟨pre, x, post, hsplit, hpre, hx⟩
  · rcases split_at_first_not (fun c => c ∈ store.Engine.ServiceDestinations.keys)
      updateOpts.Add with hadd | ⟨pre, y, post, hsplit, hpre, hy⟩
    · rw [(hvalid hrem hadd).1]
      simp
    · rw [farmUpdate_of_bad_add it updateOpts defChanged farmName store val pre post y
        hfarm hrem hsplit hpre hy]
      simp
  · rw [farmUpdate_of_bad_remove it updateOpts defChanged farmName store val pre post x
      hfarm hsplit hpre hx]
    intro h
    simp only [Option.some.injEq, UpdateError.ConnectionNotInFarm.injEq] at h
    exact hx (h ▸ hn)

/-- C17 amended, at remove = [con1, con1] on farm1 = {con1, con2}: the run succeeds
and leaves [con2]. -/
theorem farmUpdate_repeated_remove_witness :
    2 ≤ (["con1", "con1"] : Strings).count "con1" ∧
    (farmUpdate MapRange.inOrder ⟨[], ["con1", "con1"], false⟩ false "farm1" scenarioCfg).err
      = none ∧
    ∃ updated,
      (farmUpdate MapRange.inOrder ⟨[], ["con1", "con1"], false⟩ false "farm1"
        scenarioCfg).cfg.Farms.List.get? "farm1" = some updated ∧
      "con1" ∉ updated :=
  ⟨by decide,
    (farmUpdate_repeated_remove MapRange.inOrder ⟨[], ["con1", "con1"], false⟩ false "farm1"
      scenarioCfg ["con1", "con2"] "con1" (by decide) (by decide) (by decide) (by decide)).2
      (by decide) (by decide)⟩

end Farm
